import Mathlib

/-!
Shallow embedding of the `kp` priority-queue library
(`src/PriorityQueue.hpp`, `src/BoundedPriorityQueue.hpp`).

A `Node` stores an element with its priority (C++ `int`, modelled as `Int`)
and a unique id (C++ `size_t`, modelled as `Nat`).  A `BoundedPriorityQueue`
state is the protected `m_queue` vector (a list of nodes), the id counter
`m_currentId` (initialised to `1`) and the capacity `m_maxSize`.
-/

namespace KP

/-- `kp::Node<T>`: `{m_priority : int, m_value : T, m_id : size_t}`. -/
structure Node (T : Type) where
  priority : Int
  value : T
  id : Nat
deriving DecidableEq

/-- `PriorityQueue<T>::compareNodes(a, b)`:
`if (a.getPriority()==b.getPriority()) return a.getId()<b.getId();
 return a.getPriority()>b.getPriority();` -/
def compareNodes {T : Type} (a b : Node T) : Bool :=
  if a.priority = b.priority then decide (a.id < b.id)
  else decide (b.priority < a.priority)

/-- `Node<T>::operator<(other)`:
`return m_priority<other.m_priority || (m_priority==other.m_priority && m_id>other.m_id);` -/
def nodeLt {T : Type} (a b : Node T) : Bool :=
  decide (a.priority < b.priority) ||
    (decide (a.priority = b.priority) && decide (b.id < a.id))

/-- One step of insertion sort: place `a` in front of the first element `b`
of `l` with `cmp a b`. -/
def orderedInsert {α : Type} (cmp : α → α → Bool) (a : α) : List α → List α
  | [] => [a]
  | b :: l => if cmp a b then a :: b :: l else b :: orderedInsert cmp a l

/-- Model of `std::sort(begin, end, cmp)` as insertion sort.  `std::sort`
returns some sorted permutation of its input; on inputs whose elements are
pairwise inequivalent under the strict weak order `cmp` (here always the
case, since node ids are pairwise distinct) the sorted permutation is
unique, so every comparison sort computes the same list. -/
def sortNodes {α : Type} (cmp : α → α → Bool) : List α → List α
  | [] => []
  | a :: l => orderedInsert cmp a (sortNodes cmp l)

/-- State of a `kp::BoundedPriorityQueue<T>`: the inherited protected members
`m_queue` and `m_currentId`, plus the private member `m_maxSize`. -/
structure QState (T : Type) where
  queue : List (Node T)
  currentId : Nat
  maxSize : Nat
deriving DecidableEq

/-- A freshly constructed `BoundedPriorityQueue<T>(maxSize)`:
empty `m_queue`, `m_currentId = 1`.  The default constructor is
`QState.init T 10`. -/
def QState.init (T : Type) (maxSize : Nat) : QState T :=
  { queue := [], currentId := 1, maxSize := maxSize }

/-- `PriorityQueue<T>::isEmpty()`. -/
def isEmpty {T : Type} (s : QState T) : Bool :=
  s.queue.isEmpty

/-- `PriorityQueue<T>::size()`. -/
def size {T : Type} (s : QState T) : Nat :=
  s.queue.length

/-- `BoundedPriorityQueue<T>::getMaxSize()`. -/
def getMaxSize {T : Type} (s : QState T) : Nat :=
  s.maxSize

/-- `BoundedPriorityQueue<T>::insert(priority, value)`:
if `m_queue.size() < m_maxSize`, `emplace_back(priority, value, m_currentId++)`
and re-sort with `compareNodes`; else if `priority > m_queue.back().getPriority()`,
overwrite `m_queue.back()` with `Node(priority, value, m_currentId++)` and
re-sort; else do nothing.  When the queue is empty and already at capacity
(only possible with `m_maxSize = 0`) the C++ `m_queue.back()` call is
undefined behaviour; we model that branch as a no-op (`getLast? = none`). -/
def insert {T : Type} (p : Int) (v : T) (s : QState T) : QState T :=
  if s.queue.length < s.maxSize then
    { queue := sortNodes compareNodes (s.queue ++ [⟨p, v, s.currentId⟩]),
      currentId := s.currentId + 1,
      maxSize := s.maxSize }
  else
    match s.queue.getLast? with
    | none => s
    | some b =>
      if b.priority < p then
        { queue := sortNodes compareNodes (s.queue.dropLast ++ [⟨p, v, s.currentId⟩]),
          currentId := s.currentId + 1,
          maxSize := s.maxSize }
      else s

/-- `BoundedPriorityQueue<T>::pop()`: on an empty queue print
`"Queue is empty"` and return the value-initialised `T()` (modelled by
`default`); otherwise return `m_queue.front().getValue()` and erase the
front element.  The result is `(returned value, new state, lines printed)`. -/
def pop {T : Type} [Inhabited T] (s : QState T) : T × QState T × List String :=
  match s.queue with
  | [] => (default, s, ["Queue is empty"])
  | n :: rest => (n.value, { s with queue := rest }, [])

/-- `BoundedPriorityQueue<T>::setMaxSize(newSize)` truncation loop:
`while (m_queue.size() > m_maxSize) m_queue.pop_back();`. -/
def truncateBack {α : Type} (maxSize : Nat) (l : List α) : List α :=
  if maxSize < l.length then truncateBack maxSize l.dropLast else l
termination_by l.length
decreasing_by
  simp only [List.length_dropLast]
  omega

/-- `BoundedPriorityQueue<T>::setMaxSize(newSize)`: assign `m_maxSize`, then
pop from the back while the queue is over the new capacity. -/
def setMaxSize {T : Type} (newSize : Nat) (s : QState T) : QState T :=
  { s with maxSize := newSize, queue := truncateBack newSize s.queue }

/-- `BoundedPriorityQueue<T>::contains(priority, value)`: linear scan for a
node matching both priority and value (the printing it does is irrelevant to
the state; `contains` never mutates the queue). -/
def contains {T : Type} [DecidableEq T] (p : Int) (v : T) (s : QState T) : Bool :=
  s.queue.any fun n => decide (n.priority = p) && decide (n.value = v)

/-- The four public operations a client can call on a live
`BoundedPriorityQueue` (queries `isEmpty`, `size`, `getMaxSize`,
`printQueue` are `const` and cannot change the state). -/
inductive Op (T : Type) where
  | insert (p : Int) (v : T)
  | pop
  | setMax (k : Nat)
  | contains (p : Int) (v : T)

/-- Effect of one call on the queue state.  `pop` keeps the state component
of the result; `contains` is a `const` member function, so it leaves the
state untouched. -/
def applyOp {T : Type} [Inhabited T] : Op T → QState T → QState T
  | .insert p v, s => insert p v s
  | .pop, s => (pop s).2.1
  | .setMax k, s => setMaxSize k s
  | .contains _ _, s => s

/-- Run a sequence of calls from a given state. -/
def run {T : Type} [Inhabited T] (s : QState T) : List (Op T) → QState T
  | [] => s
  | op :: ops => run (applyOp op s) ops

/-- A state is reachable when some sequence of calls produces it from a
freshly constructed queue (any initial capacity). -/
def Reachable {T : Type} [Inhabited T] (s : QState T) : Prop :=
  ∃ (m : Nat) (ops : List (Op T)), s = run (QState.init T m) ops

/-- The queue list is sorted under the canonical comparator. -/
def SortedCanon {T : Type} (l : List (Node T)) : Prop :=
  l.Pairwise fun a b => compareNodes a b = true

/-- All node ids in the list are pairwise distinct. -/
def DistinctIds {T : Type} (l : List (Node T)) : Prop :=
  l.Pairwise fun a b => a.id ≠ b.id

/-- The internal invariant maintained by every operation. -/
def Inv {T : Type} (s : QState T) : Prop :=
  SortedCanon s.queue ∧ DistinctIds s.queue ∧
    (∀ n ∈ s.queue, n.id < s.currentId) ∧
    s.queue.length ≤ s.maxSize ∧ 1 ≤ s.currentId

theorem orderedInsert_perm {α : Type} (cmp : α → α → Bool) (a : α) :
    ∀ l : List α, (orderedInsert cmp a l).Perm (a :: l)
  | [] => List.Perm.refl _
  | b :: l => by
    unfold orderedInsert
    split
    · exact List.Perm.refl _
    · exact ((orderedInsert_perm cmp a l).cons b).trans (List.Perm.swap a b l)

theorem sortNodes_perm {α : Type} (cmp : α → α → Bool) :
    ∀ l : List α, (sortNodes cmp l).Perm l
  | [] => List.Perm.refl _
  | a :: l =>
    (orderedInsert_perm cmp a (sortNodes cmp l)).trans ((sortNodes_perm cmp l).cons a)

theorem mem_sortNodes {α : Type} (cmp : α → α → Bool) (l : List α) (x : α) :
    x ∈ sortNodes cmp l ↔ x ∈ l :=
  (sortNodes_perm cmp l).mem_iff

theorem length_sortNodes {α : Type} (cmp : α → α → Bool) (l : List α) :
    (sortNodes cmp l).length = l.length :=
  (sortNodes_perm cmp l).length_eq

theorem compareNodes_trans {T : Type} {a b c : Node T}
    (hab : compareNodes a b = true) (hbc : compareNodes b c = true) :
    compareNodes a c = true := by
  simp only [compareNodes] at *
  split at hab <;> split at hbc <;> split <;> simp_all
  all_goals omega

theorem compareNodes_total_of_ne {T : Type} {a b : Node T} (h : a.id ≠ b.id) :
    compareNodes a b = true ∨ compareNodes b a = true := by
  simp only [compareNodes]
  by_cases hp : a.priority = b.priority
  · rw [if_pos hp, if_pos hp.symm]
    simp only [decide_eq_true_eq]
    omega
  · rw [if_neg hp, if_neg (Ne.symm hp)]
    simp only [decide_eq_true_eq]
    omega

theorem compareNodes_le_priority {T : Type} {a b : Node T}
    (h : compareNodes a b = true) : b.priority ≤ a.priority := by
  simp only [compareNodes] at h
  split at h <;> simp_all
  all_goals omega

theorem sortedCanon_orderedInsert {T : Type} {a : Node T} {l : List (Node T)}
    (hs : SortedCanon l) (hid : ∀ b ∈ l, a.id ≠ b.id) :
    SortedCanon (orderedInsert compareNodes a l) := by
  induction l with
  | nil => exact List.pairwise_singleton _ _
  | cons b l ih =>
    unfold orderedInsert
    rcases hs with - | ⟨hb, hl⟩
    split
    · rename_i hab
      refine List.Pairwise.cons ?_ (List.Pairwise.cons hb hl)
      intro x hx
      rcases List.mem_cons.mp hx with rfl | hx
      · exact hab
      · exact compareNodes_trans hab (hb x hx)
    · rename_i hab
      have hba : compareNodes b a = true := by
        rcases compareNodes_total_of_ne (hid b (List.mem_cons_self b l)) with h | h
        · exact absurd h hab
        · exact h
      refine List.Pairwise.cons ?_ (ih hl fun x hx => hid x (List.mem_cons_of_mem b hx))
      intro x hx
      rcases List.mem_cons.mp ((orderedInsert_perm compareNodes a l).mem_iff.mp hx) with rfl | hx
      · exact hba
      · exact hb x hx

theorem sortedCanon_sortNodes {T : Type} {l : List (Node T)} (hid : DistinctIds l) :
    SortedCanon (sortNodes compareNodes l) := by
  induction l with
  | nil => exact List.Pairwise.nil
  | cons a l ih =>
    rcases hid with - | ⟨ha, hl⟩
    exact sortedCanon_orderedInsert (ih hl)
      fun b hb => ha b ((sortNodes_perm compareNodes l).mem_iff.mp hb)

theorem distinctIds_sortNodes {T : Type} {l : List (Node T)} (hid : DistinctIds l) :
    DistinctIds (sortNodes compareNodes l) :=
  ((sortNodes_perm compareNodes l).pairwise_iff fun h => Ne.symm h).mpr hid

theorem last_min_of_sorted {T : Type} {l : List (Node T)} {b : Node T}
    (hs : SortedCanon l) (hb : l.getLast? = some b) :
    ∀ n ∈ l, b.priority ≤ n.priority := by
  have hne : l ≠ [] := by
    intro h
    subst h
    simp [List.getLast?] at hb
  have hdec : l.dropLast ++ [l.getLast hne] = l := List.dropLast_append_getLast hne
  have hbl : l.getLast hne = b := by
    have := List.getLast?_eq_getLast l hne
    rw [this] at hb
    exact Option.some.inj hb
  intro n hn
  rw [← hdec] at hs hn
  rcases List.mem_append.mp hn with hn | hn
  · have := (List.pairwise_append.mp hs).2.2 n hn (l.getLast hne) (List.mem_singleton_self _)
    rw [hbl] at this
    exact compareNodes_le_priority this
  · rw [List.mem_singleton.mp hn, hbl]

theorem distinctIds_append_fresh {T : Type} {l : List (Node T)} {c : Nat}
    (hd : DistinctIds l) (hlt : ∀ n ∈ l, n.id < c) (p : Int) (v : T) :
    DistinctIds (l ++ [(⟨p, v, c⟩ : Node T)]) := by
  rw [DistinctIds, List.pairwise_append]
  refine ⟨hd, List.pairwise_singleton _ _, ?_⟩
  intro a ha b hb
  rw [List.mem_singleton.mp hb]
  exact Nat.ne_of_lt (hlt a ha)

theorem inv_insert {T : Type} {s : QState T} (h : Inv s) (p : Int) (v : T) :
    Inv (insert p v s) := by
  obtain ⟨hs, hd, hlt, hlen, hid⟩ := h
  unfold insert
  split
  · rename_i hcap
    have hd' : DistinctIds (s.queue ++ [(⟨p, v, s.currentId⟩ : Node T)]) :=
      distinctIds_append_fresh hd hlt p v
    refine ⟨sortedCanon_sortNodes hd', distinctIds_sortNodes hd', ?_, ?_,
      Nat.succ_le_succ (Nat.zero_le _)⟩
    · intro n hn
      rcases List.mem_append.mp ((mem_sortNodes _ _ n).mp hn) with hn | hn
      · exact Nat.lt_succ_of_lt (hlt n hn)
      · rw [List.mem_singleton.mp hn]
        exact Nat.lt_succ_self _
    · simp only [length_sortNodes, List.length_append, List.length_singleton]
      omega
  · rename_i hcap
    split
    · exact ⟨hs, hd, hlt, hlen, hid⟩
    · rename_i b hb
      split
      · have hsub : s.queue.dropLast.Sublist s.queue := List.dropLast_sublist s.queue
        have hd₀ : DistinctIds s.queue.dropLast := List.Pairwise.sublist hsub hd
        have hlt₀ : ∀ n ∈ s.queue.dropLast, n.id < s.currentId :=
          fun n hn => hlt n (hsub.mem hn)
        have hd' : DistinctIds (s.queue.dropLast ++ [(⟨p, v, s.currentId⟩ : Node T)]) :=
          distinctIds_append_fresh hd₀ hlt₀ p v
        have hne : s.queue ≠ [] := by
          intro hnil
          rw [hnil] at hb
          simp [List.getLast?] at hb
        refine ⟨sortedCanon_sortNodes hd', distinctIds_sortNodes hd', ?_, ?_,
          Nat.succ_le_succ (Nat.zero_le _)⟩
        · intro n hn
          rcases List.mem_append.mp ((mem_sortNodes _ _ n).mp hn) with hn | hn
          · exact Nat.lt_succ_of_lt (hlt₀ n hn)
          · rw [List.mem_singleton.mp hn]
            exact Nat.lt_succ_self _
        · simp only [length_sortNodes, List.length_append, List.length_singleton,
            List.length_dropLast]
          have : 0 < s.queue.length := List.length_pos.mpr hne
          omega
      · exact ⟨hs, hd, hlt, hlen, hid⟩

theorem pop_state_nil {T : Type} [Inhabited T] {s : QState T} (h : s.queue = []) :
    (pop s).2.1 = s := by
  unfold pop
  rw [h]

theorem pop_state_cons {T : Type} [Inhabited T] {s : QState T} {n : Node T}
    {rest : List (Node T)} (h : s.queue = n :: rest) :
    (pop s).2.1 = { s with queue := rest } := by
  unfold pop
  rw [h]

theorem inv_pop {T : Type} [Inhabited T] {s : QState T} (h : Inv s) :
    Inv (pop s).2.1 := by
  match hq : s.queue with
  | [] => rw [pop_state_nil hq]; exact h
  | n :: rest =>
    obtain ⟨hs, hd, hlt, hlen, hid⟩ := h
    rw [hq] at hs hd hlt hlen
    rw [pop_state_cons hq]
    refine ⟨hs.of_cons, hd.of_cons, ?_, Nat.le_of_succ_le hlen, hid⟩
    exact fun m hm => hlt m (List.mem_cons_of_mem n hm)

theorem truncateBack_eq_take_aux {α : Type} :
    ∀ (n k : Nat) (l : List α), l.length ≤ n → truncateBack k l = l.take k
  | n, k, l, hn => by
    rw [truncateBack]
    split
    · rename_i h
      rw [truncateBack_eq_take_aux (n - 1) k l.dropLast
        (by simp only [List.length_dropLast]; omega)]
      rw [List.dropLast_eq_take, List.take_take]
      congr 1
      omega
    · rename_i h
      exact (List.take_of_length_le (by omega)).symm
termination_by n => n
decreasing_by omega

theorem truncateBack_eq_take {α : Type} (k : Nat) (l : List α) :
    truncateBack k l = l.take k :=
  truncateBack_eq_take_aux l.length k l (le_refl _)

theorem inv_setMaxSize {T : Type} {s : QState T} (h : Inv s) (k : Nat) :
    Inv (setMaxSize k s) := by
  obtain ⟨hs, hd, hlt, hlen, hid⟩ := h
  have hsub : (s.queue.take k).Sublist s.queue := List.take_sublist k s.queue
  refine ⟨?_, ?_, ?_, ?_, hid⟩ <;>
    simp only [setMaxSize, truncateBack_eq_take]
  · exact List.Pairwise.sublist hsub hs
  · exact List.Pairwise.sublist hsub hd
  · exact fun n hn => hlt n (hsub.mem hn)
  · simp only [List.length_take]
    omega

theorem inv_applyOp {T : Type} [Inhabited T] {s : QState T} (h : Inv s) (op : Op T) :
    Inv (applyOp op s) := by
  match op with
  | .insert p v => exact inv_insert h p v
  | .pop => exact inv_pop h
  | .setMax k => exact inv_setMaxSize h k
  | .contains p v => exact h

theorem inv_run {T : Type} [Inhabited T] {s : QState T} (h : Inv s) :
    ∀ ops : List (Op T), Inv (run s ops)
  | [] => h
  | op :: ops => inv_run (inv_applyOp h op) ops

theorem inv_init (T : Type) (m : Nat) : Inv (QState.init T m) :=
  ⟨List.Pairwise.nil, List.Pairwise.nil, by simp [QState.init], by simp [QState.init],
    le_refl 1⟩

theorem reachable_inv {T : Type} [Inhabited T] {s : QState T} (h : Reachable s) :
    Inv s := by
  obtain ⟨m, ops, rfl⟩ := h
  exact inv_run (inv_init T m) ops

theorem insert_maxSize {T : Type} (p : Int) (v : T) (s : QState T) :
    getMaxSize (insert p v s) = getMaxSize s := by
  unfold insert getMaxSize
  split
  · rfl
  · split
    · rfl
    · split <;> rfl

theorem compareNodes_eq_nodeLt_swap {T : Type} (a b : Node T) :
    compareNodes a b = nodeLt b a := by
  unfold compareNodes nodeLt
  by_cases hp : a.priority = b.priority
  · simp [hp]
  · simp [hp, Ne.symm hp]

/-- C1: for every reachable state of a `BoundedPriorityQueue` (any sequence
of `insert`, `pop`, `setMaxSize`, `contains` calls starting from a fresh
queue), the node sequence is sorted under the canonical comparator:
priorities are non-increasing from front to back, and among nodes of equal
priority the one with the smaller id (inserted earlier) comes first. -/
theorem C1_sorted_invariant {T : Type} [Inhabited T] (s : QState T) (h : Reachable s) :
    s.queue.Pairwise fun a b =>
      b.priority ≤ a.priority ∧ (a.priority = b.priority → a.id < b.id) := by
  refine ((reachable_inv h).1).imp ?_
  intro a b hab
  simp only [compareNodes] at hab
  constructor
  · split at hab <;> simp_all
    all_goals omega
  · intro hp
    rw [if_pos hp] at hab
    simpa using hab

theorem C1_witness :
    (run (QState.init Int 3)
        [Op.insert 10 100, Op.insert 20 200, Op.insert 1 5, Op.insert 15 150,
          Op.pop, Op.contains 10 100, Op.setMax 1, Op.insert 7 70]).queue.Pairwise
      (fun a b => b.priority ≤ a.priority ∧ (a.priority = b.priority → a.id < b.id)) :=
  C1_sorted_invariant _ ⟨3, _, rfl⟩

/-- C2: for every reachable state of a `BoundedPriorityQueue` (any sequence
of `insert`, `pop`, `setMaxSize` calls), `size() ≤ getMaxSize()`; moreover
`insert` never grows the sequence past `maxSize`, and `setMaxSize k`
immediately restores the bound `size ≤ k` after shrinking the capacity. -/
theorem C2_capacity_invariant {T : Type} [Inhabited T] (s : QState T) (h : Reachable s) :
    size s ≤ getMaxSize s ∧
      (∀ (p : Int) (v : T), size (insert p v s) ≤ getMaxSize s) ∧
      (∀ k : Nat, size (setMaxSize k s) ≤ k) := by
  have hI := reachable_inv h
  refine ⟨hI.2.2.2.1, ?_, ?_⟩
  · intro p v
    have := (inv_insert hI p v).2.2.2.1
    rw [← insert_maxSize p v s]
    exact this
  · intro k
    have := (inv_setMaxSize hI k).2.2.2.1
    simpa [setMaxSize] using this

theorem C2_witness :
    size (run (QState.init Int 2) [Op.insert 10 100, Op.insert 20 200, Op.insert 30 300]) ≤
        getMaxSize (run (QState.init Int 2)
          [Op.insert 10 100, Op.insert 20 200, Op.insert 30 300]) ∧
      size (insert 40 400 (run (QState.init Int 2)
          [Op.insert 10 100, Op.insert 20 200, Op.insert 30 300])) ≤
        getMaxSize (run (QState.init Int 2)
          [Op.insert 10 100, Op.insert 20 200, Op.insert 30 300]) ∧
      size (setMaxSize 1 (run (QState.init Int 2)
          [Op.insert 10 100, Op.insert 20 200, Op.insert 30 300])) ≤ 1 :=
  ⟨(C2_capacity_invariant _ ⟨2, _, rfl⟩).1,
    (C2_capacity_invariant _ ⟨2, _, rfl⟩).2.1 40 400,
    (C2_capacity_invariant _ ⟨2, _, rfl⟩).2.2 1⟩

/-- C4: for every queue state at capacity (`size = maxSize`) with tail node
`b`, `insert p v` with `p ≤ b.priority` (the priority of the current
minimum) leaves the state completely unchanged — same node sequence, no
error; in particular when `p` exactly ties the minimum, the incumbent
earlier-inserted element is retained and the new element is dropped. -/
theorem C4_tie_rejection {T : Type} (s : QState T) (b : Node T) (p : Int) (v : T)
    (hfull : size s = getMaxSize s) (hlast : s.queue.getLast? = some b)
    (hp : p ≤ b.priority) :
    insert p v s = s := by
  unfold insert
  rw [if_neg (by unfold size getMaxSize at hfull; omega), hlast]
  exact if_neg (by omega)

theorem C4_witness :
    insert 5 55 (run (QState.init Int 2) [Op.insert 10 100, Op.insert 5 50]) =
      run (QState.init Int 2) [Op.insert 10 100, Op.insert 5 50] :=
  C4_tie_rejection _ ⟨5, 50, 2⟩ 5 55 rfl rfl (by decide)

/-- C5: popping an empty `BoundedPriorityQueue` returns the
default-constructed (zero) value of the element type, prints the diagnostic
notice "Queue is empty", and raises no error: the full result of `pop` is
exactly `(default, unchanged state, that one notice)`. -/
theorem C5_pop_on_empty {T : Type} [Inhabited T] (s : QState T) (h : isEmpty s = true) :
    pop s = (default, s, ["Queue is empty"]) := by
  have hq : s.queue = [] := by
    unfold isEmpty at h
    simpa using h
  unfold pop
  rw [hq]

theorem C5_witness :
    pop (QState.init Int 4) = (0, QState.init Int 4, ["Queue is empty"]) :=
  C5_pop_on_empty _ rfl

/-- C7: for every queue state and every `k`, after `setMaxSize k` the stored
`maxSize` equals `k` and the node sequence is the first `min (previous size) k`
nodes of the previous sequence (`take k`): a larger previous size is
truncated from the tail with no error signalled, a previous size at most `k`
leaves the contents unchanged. -/
theorem C7_setMaxSize_truncates {T : Type} (s : QState T) (k : Nat) :
    getMaxSize (setMaxSize k s) = k ∧ (setMaxSize k s).queue = s.queue.take k :=
  ⟨rfl, truncateBack_eq_take k s.queue⟩

/-- C8 as stated claims this proposition is false: that `compareNodes` and
`Node::operator<` differ somewhere as orderings, i.e. that it is not the
case that `compareNodes a b` holds exactly when `b < a`. -/
def orderingsAgree : Prop :=
  ∀ a b : Node Int, compareNodes a b = nodeLt b a

/-- C8 refutation: the two comparison functions DO induce the same ordering —
`compareNodes a b` coincides with `nodeLt b a` for all nodes, so the claimed
disagreement point does not exist. -/
theorem C8_counterexample : orderingsAgree :=
  fun a b => compareNodes_eq_nodeLt_swap a b

/-- C8 (amended): the tie-break of `compareNodes` (ascending id among equal
priorities) and of `Node::operator<` (the larger id is "less" among equal
priorities) are two views of the same ordering: for all nodes `a` and `b`,
`compareNodes a b` holds exactly when `b < a`; `operator<` is redundant
legacy code, not a divergent second ordering. -/
theorem C8_amended_same_ordering {T : Type} (a b : Node T) :
    compareNodes a b = nodeLt b a :=
  compareNodes_eq_nodeLt_swap a b

/-- C9: popping an empty queue leaves the entire state unchanged — the queue
stays empty, the id counter is not advanced, `maxSize` is unmodified — so a
subsequent `insert` behaves exactly as if the failed `pop` had never
happened. -/
theorem C9_pop_empty_frame {T : Type} [Inhabited T] (s : QState T) (h : s.queue = []) :
    (pop s).2.1 = s ∧ ∀ (p : Int) (v : T), insert p v (pop s).2.1 = insert p v s := by
  have hst : (pop s).2.1 = s := pop_state_nil h
  exact ⟨hst, fun p v => by rw [hst]⟩

theorem C9_witness :
    (pop (QState.init Int 7)).2.1 = QState.init Int 7 ∧
      insert 3 33 (pop (QState.init Int 7)).2.1 = insert 3 33 (QState.init Int 7) :=
  ⟨(C9_pop_empty_frame (QState.init Int 7) rfl).1,
    (C9_pop_empty_frame (QState.init Int 7) rfl).2 3 33⟩

/-- C3: inserting into a full queue (`size = maxSize > 0`, current minimum
`b` at the tail) with priority strictly greater than `b.priority` removes
exactly that minimum element, adds one new node carrying `p` and `v` with
the fresh id `currentId` (distinct from every stored id), leaves every other
node unchanged (the new sequence is a permutation of the old one without its
tail plus the new node), and advances the id counter. -/
theorem C3_eviction {T : Type} [Inhabited T] (s : QState T) (b : Node T) (p : Int) (v : T)
    (h : Reachable s) (hfull : size s = getMaxSize s) (_hpos : 0 < getMaxSize s)
    (hlast : s.queue.getLast? = some b) (hp : b.priority < p) :
    (∀ n ∈ s.queue, b.priority ≤ n.priority) ∧
      s.queue = s.queue.dropLast ++ [b] ∧
      (insert p v s).queue.Perm (s.queue.dropLast ++ [⟨p, v, s.currentId⟩]) ∧
      (∀ n ∈ s.queue, n.id ≠ s.currentId) ∧
      (insert p v s).currentId = s.currentId + 1 := by
  obtain ⟨hs, hd, hlt, hlen, hid⟩ := reachable_inv h
  have hne : s.queue ≠ [] := by
    intro h0
    rw [h0] at hlast
    simp [List.getLast?] at hlast
  have hdec : s.queue = s.queue.dropLast ++ [b] := by
    have h2 := List.getLast?_eq_getLast s.queue hne
    rw [hlast] at h2
    rw [Option.some.inj h2]
    exact (List.dropLast_append_getLast hne).symm
  have hins : insert p v s =
      { queue := sortNodes compareNodes (s.queue.dropLast ++ [⟨p, v, s.currentId⟩]),
        currentId := s.currentId + 1,
        maxSize := s.maxSize } := by
    unfold insert
    rw [if_neg (by unfold size getMaxSize at hfull; omega), hlast]
    exact if_pos hp
  refine ⟨last_min_of_sorted hs hlast, hdec, ?_, ?_, ?_⟩
  · rw [hins]
    exact sortNodes_perm _ _
  · exact fun n hn => Nat.ne_of_lt (hlt n hn)
  · rw [hins]

theorem C3_witness :
    (insert 7 77 (run (QState.init Int 2) [Op.insert 10 100, Op.insert 5 50])).queue.Perm
        ((run (QState.init Int 2) [Op.insert 10 100, Op.insert 5 50]).queue.dropLast ++
          [⟨7, 77, (run (QState.init Int 2) [Op.insert 10 100, Op.insert 5 50]).currentId⟩]) ∧
      (insert 7 77 (run (QState.init Int 2) [Op.insert 10 100, Op.insert 5 50])).currentId =
        (run (QState.init Int 2) [Op.insert 10 100, Op.insert 5 50]).currentId + 1 :=
  ⟨(C3_eviction (run (QState.init Int 2) [Op.insert 10 100, Op.insert 5 50])
      ⟨5, 50, 2⟩ 7 77 ⟨2, _, rfl⟩ rfl (by decide) rfl (by decide)).2.2.1,
    (C3_eviction (run (QState.init Int 2) [Op.insert 10 100, Op.insert 5 50])
      ⟨5, 50, 2⟩ 7 77 ⟨2, _, rfl⟩ rfl (by decide) rfl (by decide)).2.2.2.2⟩

/-- C6: popping a non-empty queue removes the first node of the sequence and
returns its value, which is the value of a node of maximal priority;
consequently, for a queue of capacity ≥ 3 populated by inserting priorities
10, 30, 1 in that order, three successive pops yield the values inserted
with priorities 30, 10, 1, in that order. -/
theorem C6_pop_ordering {T : Type} [Inhabited T] (s : QState T) (n : Node T)
    (rest : List (Node T)) (h : Reachable s) (hq : s.queue = n :: rest) :
    ((pop s).1 = n.value ∧ (pop s).2.1.queue = rest ∧
        ∀ m ∈ s.queue, m.priority ≤ n.priority) ∧
      ∀ c : Nat, 3 ≤ c → ∀ a b d : T,
        (pop (insert 1 d (insert 30 b (insert 10 a (QState.init T c))))).1 = b ∧
          (pop (pop (insert 1 d (insert 30 b
            (insert 10 a (QState.init T c))))).2.1).1 = a ∧
          (pop (pop (pop (insert 1 d (insert 30 b
            (insert 10 a (QState.init T c))))).2.1).2.1).1 = d := by
  constructor
  · have hs : SortedCanon s.queue := (reachable_inv h).1
    rw [hq] at hs
    refine ⟨?_, ?_, ?_⟩
    · unfold pop
      rw [hq]
    · rw [pop_state_cons hq]
    · intro m hm
      rw [hq] at hm
      rcases List.mem_cons.mp hm with rfl | hm
      · exact le_refl _
      · rcases hs with - | ⟨hn, -⟩
        exact compareNodes_le_priority (hn m hm)
  · intro c hc a b d
    have e1 : insert 10 a (QState.init T c) =
        { queue := [⟨10, a, 1⟩], currentId := 2, maxSize := c } := by
      simp only [insert, QState.init]
      rw [if_pos (by simp only [List.length_nil]; omega)]
      rfl
    have e2 :
        insert 30 b
            ({ queue := [⟨10, a, 1⟩], currentId := 2, maxSize := c } : QState T) =
          { queue := [⟨30, b, 2⟩, ⟨10, a, 1⟩], currentId := 3, maxSize := c } := by
      simp only [insert]
      rw [if_pos (by simp only [List.length_cons, List.length_nil]; omega)]
      rfl
    have e3 :
        insert 1 d
            ({ queue := [⟨30, b, 2⟩, ⟨10, a, 1⟩], currentId := 3, maxSize := c } : QState T) =
          { queue := [⟨30, b, 2⟩, ⟨10, a, 1⟩, ⟨1, d, 3⟩], currentId := 4, maxSize := c } := by
      simp only [insert]
      rw [if_pos (by simp only [List.length_cons, List.length_nil]; omega)]
      rfl
    rw [e1, e2, e3]
    exact ⟨rfl, rfl, rfl⟩

theorem C6_witness :
    (pop (run (QState.init Int 5)
        [Op.insert 10 100, Op.insert 30 300, Op.insert 1 1])).1 = 300 ∧
      (pop (insert 1 1 (insert 30 300 (insert 10 100 (QState.init Int 3))))).1 = 300 ∧
      (pop (pop (insert 1 1 (insert 30 300
        (insert 10 100 (QState.init Int 3))))).2.1).1 = 100 ∧
      (pop (pop (pop (insert 1 1 (insert 30 300
        (insert 10 100 (QState.init Int 3))))).2.1).2.1).1 = 1 := by
  refine ⟨(C6_pop_ordering (run (QState.init Int 5)
      [Op.insert 10 100, Op.insert 30 300, Op.insert 1 1])
      ⟨30, 300, 2⟩ [⟨10, 100, 1⟩, ⟨1, 1, 3⟩] ⟨5, _, rfl⟩ rfl).1.1, ?_, ?_, ?_⟩
  · exact ((C6_pop_ordering (run (QState.init Int 5)
      [Op.insert 10 100, Op.insert 30 300, Op.insert 1 1])
      ⟨30, 300, 2⟩ [⟨10, 100, 1⟩, ⟨1, 1, 3⟩] ⟨5, _, rfl⟩ rfl).2 3 (by omega) 100 300 1).1
  · exact ((C6_pop_ordering (run (QState.init Int 5)
      [Op.insert 10 100, Op.insert 30 300, Op.insert 1 1])
      ⟨30, 300, 2⟩ [⟨10, 100, 1⟩, ⟨1, 1, 3⟩] ⟨5, _, rfl⟩ rfl).2 3 (by omega) 100 300 1).2.1
  · exact ((C6_pop_ordering (run (QState.init Int 5)
      [Op.insert 10 100, Op.insert 30 300, Op.insert 1 1])
      ⟨30, 300, 2⟩ [⟨10, 100, 1⟩, ⟨1, 1, 3⟩] ⟨5, _, rfl⟩ rfl).2 3 (by omega) 100 300 1).2.2

/-- C10: in every reachable state the ids of the stored nodes are pairwise
distinct and all strictly less than the current id counter, which starts at
1 on a fresh queue; and every `insert` either advances the counter by
exactly one (accepted insertion) or is a complete no-op (rejection at
capacity), so a rejected insert consumes no id. -/
theorem C10_fresh_ids {T : Type} [Inhabited T] (s : QState T) (h : Reachable s) :
    DistinctIds s.queue ∧ (∀ n ∈ s.queue, n.id < s.currentId) ∧
      1 ≤ s.currentId ∧ (∀ m : Nat, (QState.init T m).currentId = 1) ∧
      ∀ (p : Int) (v : T),
        (insert p v s).currentId = s.currentId + 1 ∨ insert p v s = s := by
  obtain ⟨hs, hd, hlt, hlen, hid⟩ := reachable_inv h
  refine ⟨hd, hlt, hid, fun m => rfl, ?_⟩
  intro p v
  unfold insert
  split
  · exact Or.inl rfl
  · split
    · exact Or.inr rfl
    · split
      · exact Or.inl rfl
      · exact Or.inr rfl

theorem C10_witness :
    DistinctIds (run (QState.init Int 1) [Op.insert 10 100]).queue ∧
      ((insert 5 55 (run (QState.init Int 1) [Op.insert 10 100])).currentId =
          (run (QState.init Int 1) [Op.insert 10 100]).currentId + 1 ∨
        insert 5 55 (run (QState.init Int 1) [Op.insert 10 100]) =
          run (QState.init Int 1) [Op.insert 10 100]) :=
  ⟨(C10_fresh_ids _ ⟨1, _, rfl⟩).1, (C10_fresh_ids _ ⟨1, _, rfl⟩).2.2.2.2 5 55⟩

end KP
